import Mathlib

/-
Verification of the discrete-time compartmental epidemic engine of
`src/scenarios/scenariodriven.py` (class `ScenarioDrivenModel`).

All population counts are modelled as exact rationals (the Python code uses
floats; the claims are stated "within floating-point tolerance", which we
settle exactly over the rationals).  The compartment class `ProbState`
(`parts/amortizedmarkov.py`) and the age-group cascade `AgeGroup`
(`parts/hospitalized_agegroup.py`) are imported by the source file but their
code is not part of the repository snapshot, so they are modelled from the
specification (sections 4.1 and 4.2).
-/

namespace EpiModel

/-- The runtime failures the driver can hit, mirroring the Python exceptions:
an out-of-range schedule index (`IndexError`), arithmetic on the `None` value
of `beta` (`TypeError`), and the spec's `ValueError` for a negative cascade
inflow. -/
inductive Err where
  | indexError
  | typeError
  | valueError
  deriving DecidableEq

/-- Modelled from the spec: the generic population compartment `ProbState`
of `parts/amortizedmarkov.py` (missing from `src/`), spec section 4.1.
`period` is the mean dwell time, `count` the committed population, `pending`
the staged net delta, `domain` the per-day history (the source reads the
`.domain` attribute in `gather_sums`, seeded with the initial count), and
`exit_rate` the per-day normalized exit fraction produced by
`add_exit_state(target, 1)` followed by `normalize_states_over_period()`
(weight 1 divided by `period`); it is 0 for compartments with no exit route.
The one exit route each chained compartment has is wired into the driver. -/
structure ProbState where
  period : ℚ
  count : ℚ
  pending : ℚ
  domain : List ℚ
  exit_rate : ℚ
  deriving DecidableEq

/-- Modelled from the spec (section 4.1): `store_pending` accumulates a signed
delta into the staged value without touching `count` or the history. -/
def ProbState.store_pending (s : ProbState) (delta : ℚ) : ProbState :=
  { s with pending := s.pending + delta }

/-- Modelled from the spec (section 4.1): `apply_pending` commits
`count += pending`, appends the new count to the history and resets
`pending` to 0. -/
def ProbState.apply_pending (s : ProbState) : ProbState :=
  { s with
    count := s.count + s.pending,
    domain := s.domain ++ [s.count + s.pending],
    pending := 0 }

/-- Modelled from the spec (section 4.1): the amount `pass_downstream` moves
out of a compartment on one day, computed from the current committed `count`
and the normalized per-day exit fraction. -/
def ProbState.passAmount (s : ProbState) : ℚ :=
  s.count * s.exit_rate

/-- Compartment constructor: initial count, zero staged delta, history seeded
with the initial snapshot. -/
def mkProbState (period count exit_rate : ℚ) : ProbState :=
  { period := period, count := count, pending := 0, domain := [count],
    exit_rate := exit_rate }

/-- Modelled from the spec: the per-age-group parameter record backing
`AgeGroup.stats` (from `parts/hospitalized_agegroup.py`, missing from
`src/`).  `pop_dist` is the fraction of the diagnosed population routed to
this group; the `_rate` fields are per-day exit fractions of the four
non-terminal cascade stages; the `_to_` fields split each stage's daily
outflow over its clinical sub-outcomes (spec section 4.2: isolation may
escalate to non-critical care or resolve, non-critical may escalate to ICU or
recover, ICU may escalate to ventilation, recover or die, ventilation may
recover or die).  A well-formed configuration has each stage's split
fractions summing to 1. -/
structure SubgroupStats where
  pop_dist : ℚ
  iso_rate : ℚ
  nc_rate : ℚ
  icu_rate : ℚ
  vent_rate : ℚ
  iso_to_noncrit : ℚ
  iso_to_recovered : ℚ
  nc_to_icu : ℚ
  nc_to_recovered : ℚ
  icu_to_vent : ℚ
  icu_to_recovered : ℚ
  icu_to_deceased : ℚ
  vent_to_recovered : ℚ
  vent_to_deceased : ℚ
  deriving DecidableEq

/-- Modelled from the spec: the age-stratified clinical cascade `AgeGroup`
of `parts/hospitalized_agegroup.py` (missing from `src/`), spec section 4.2.
The six stage compartments are the ones whose `.domain` histories
`gather_sums` reads: `isolated`, `h_noncrit`, `h_icu`, `h_icu_vent`,
`recovered`, `deceased`. -/
structure AgeGroup where
  stats : SubgroupStats
  isolated : ProbState
  h_noncrit : ProbState
  h_icu : ProbState
  h_icu_vent : ProbState
  recovered : ProbState
  deceased : ProbState
  deriving DecidableEq

/-- Modelled from the spec (section 4.2): `apply_infections` stages the day's
diagnosed inflow for this group into the first cascade stage (isolation) and
fails with `ValueError` on a negative inflow. -/
def AgeGroup.apply_infections (g : AgeGroup) (inflow : ℚ) : Except Err AgeGroup :=
  if inflow < 0 then .error .valueError
  else .ok { g with isolated := g.isolated.store_pending inflow }

/-- Modelled from the spec (section 4.2): `calculate_redistributions` computes
every stage's daily outflow from the pre-update counts, stages the outflow as
a pending subtraction on the stage and as pending additions on its clinical
sub-outcomes, and commits nothing. -/
def AgeGroup.calculate_redistributions (g : AgeGroup) : AgeGroup :=
  let isoOut := g.isolated.count * g.stats.iso_rate
  let ncOut := g.h_noncrit.count * g.stats.nc_rate
  let icuOut := g.h_icu.count * g.stats.icu_rate
  let ventOut := g.h_icu_vent.count * g.stats.vent_rate
  { g with
    isolated := g.isolated.store_pending (-isoOut),
    h_noncrit :=
      (g.h_noncrit.store_pending (-ncOut)).store_pending
        (isoOut * g.stats.iso_to_noncrit),
    h_icu :=
      (g.h_icu.store_pending (-icuOut)).store_pending
        (ncOut * g.stats.nc_to_icu),
    h_icu_vent :=
      (g.h_icu_vent.store_pending (-ventOut)).store_pending
        (icuOut * g.stats.icu_to_vent),
    recovered :=
      (((g.recovered.store_pending
            (isoOut * g.stats.iso_to_recovered)).store_pending
          (ncOut * g.stats.nc_to_recovered)).store_pending
        (icuOut * g.stats.icu_to_recovered)).store_pending
        (ventOut * g.stats.vent_to_recovered),
    deceased :=
      (g.deceased.store_pending
          (icuOut * g.stats.icu_to_deceased)).store_pending
        (ventOut * g.stats.vent_to_deceased) }

/-- Modelled from the spec (section 4.2): `apply_pending` commits every stage
of the cascade in one step. -/
def AgeGroup.apply_pending (g : AgeGroup) : AgeGroup :=
  { g with
    isolated := g.isolated.apply_pending,
    h_noncrit := g.h_noncrit.apply_pending,
    h_icu := g.h_icu.apply_pending,
    h_icu_vent := g.h_icu_vent.apply_pending,
    recovered := g.recovered.apply_pending,
    deceased := g.deceased.apply_pending }

/-- Cascade constructor: all stages start empty with their histories seeded
with the initial (zero) snapshot; each non-terminal stage carries its per-day
exit fraction, the terminal stages have none. -/
def mkAgeGroup (s : SubgroupStats) : AgeGroup :=
  { stats := s,
    isolated := mkProbState 0 0 s.iso_rate,
    h_noncrit := mkProbState 0 0 s.nc_rate,
    h_icu := mkProbState 0 0 s.icu_rate,
    h_icu_vent := mkProbState 0 0 s.vent_rate,
    recovered := mkProbState 0 0 0,
    deceased := mkProbState 0 0 0 }

/-- The scenario parameter bag, restricted to the fields
`ScenarioDrivenModel.__init__` reads from `EpiScenario` (`scenarios/scenario.py`
is an external collaborator per the spec, treated as an opaque read-only
parameter source). -/
structure Scenario where
  initial_r0 : ℚ
  totalpop : ℚ
  init_susceptible : ℚ
  init_infected : ℚ
  init_infectious : ℚ
  incubation_period : ℚ
  prediagnosis : ℚ
  subgrouprates : List SubgroupStats
  deriving DecidableEq

/-- The driver state of `ScenarioDrivenModel`.  `beta` is `Option`-valued
because `__init__` sets it to Python `None`.  The scenario-owned list
`scenario.hospital_door_aggregator` is carried here as driver state.
Python's insertion-ordered subgroup dict is modelled as a list. -/
structure Model where
  total_days : ℕ
  r0 : ℚ
  beta : Option ℚ
  population : ℚ
  susceptible : ProbState
  incubating : ProbState
  infectious : ProbState
  isolated_holding : ProbState
  subgroups : List AgeGroup
  hospital_door_aggregator : List ℚ
  deriving DecidableEq

/-- `ScenarioDrivenModel.__init__`: `total_days = 0`, `r0` from the scenario,
`beta = None`; the four top-level compartments are built as in the source
(`susceptible` with period 0 and no exit route, `incubating` and `infectious`
each given one exit route of weight 1 and normalized, so their per-day exit
fraction is `1/period`, `isolated_holding` with period 90 and no exit route);
one cascade per subgroup rate table. -/
def mkModel (sc : Scenario) : Model :=
  { total_days := 0,
    r0 := sc.initial_r0,
    beta := none,
    population := sc.totalpop,
    susceptible := mkProbState 0 sc.init_susceptible 0,
    incubating := mkProbState sc.incubation_period sc.init_infected
      (1 / sc.incubation_period),
    infectious := mkProbState sc.prediagnosis sc.init_infectious
      (1 / sc.prediagnosis),
    isolated_holding := mkProbState 90 0 0,
    subgroups := sc.subgrouprates.map mkAgeGroup,
    hospital_door_aggregator := [] }

/-- `ScenarioDrivenModel.set_r0`: stores the new value, nothing else. -/
def set_r0 (m : Model) (value : ℚ) : Model :=
  { m with r0 := value }

/-- `ScenarioDrivenModel.recalculate`: `beta = r0 / infectious.period`. -/
def recalculate (m : Model) : Model :=
  { m with beta := some (m.r0 / m.infectious.period) }

/-- One iteration of the subgroup loop in `step_day`: compute this group's
share of the diagnosed cohort, stage it with `apply_infections`, then stage
the cascade-internal moves with `calculate_redistributions`. -/
def stageGroup (diagnosed : ℚ) (g : AgeGroup) : Except Err AgeGroup :=
  (g.apply_infections (diagnosed * g.stats.pop_dist)).map
    AgeGroup.calculate_redistributions

/-- The subgroup `for` loop of `step_day`, threading the possible
`ValueError` of `apply_infections`. -/
def mapGroupsM (f : AgeGroup → Except Err AgeGroup) :
    List AgeGroup → Except Err (List AgeGroup)
  | [] => .ok []
  | g :: gs => (f g).bind fun g' => (mapGroupsM f gs).map fun gs' => g' :: gs'

/-- `ScenarioDrivenModel.step_day`, translated statement by statement.
Computing with a `None` beta is Python's `TypeError`.  The two
`pass_downstream()` calls are inlined with the model's fixed topology
(incubating feeds infectious, infectious feeds isolated_holding), staging
from the pre-update counts.  The day's diagnosed cohort is read from
`isolated_holding.pending`, appended (cumulatively) to the aggregator, the
pending is zeroed, the cohort is split over the subgroups, and only then is
everything committed. -/
def step_day (m : Model) : Except Err Model :=
  match m.beta with
  | none => .error .typeError
  | some b =>
    let new_infections := b * m.susceptible.count * m.infectious.count / m.population
    let susceptible1 := m.susceptible.store_pending (-new_infections)
    let incubating1 := m.incubating.store_pending new_infections
    let incOut := incubating1.passAmount
    let incubating2 := incubating1.store_pending (-incOut)
    let infectious1 := m.infectious.store_pending incOut
    let infOut := infectious1.passAmount
    let infectious2 := infectious1.store_pending (-infOut)
    let isolated1 := m.isolated_holding.store_pending infOut
    let diagnosed := isolated1.pending
    let diagnagg :=
      match m.hospital_door_aggregator.getLast? with
      | none => diagnosed
      | some last => last + diagnosed
    let agg := m.hospital_door_aggregator ++ [diagnagg]
    let isolated2 := { isolated1 with pending := 0 }
    (mapGroupsM (stageGroup diagnosed) m.subgroups).map fun staged =>
      { m with
        total_days := m.total_days + 1,
        susceptible := susceptible1.apply_pending,
        incubating := incubating2.apply_pending,
        infectious := infectious2.apply_pending,
        isolated_holding := isolated2,
        subgroups := staged.map AgeGroup.apply_pending,
        hospital_door_aggregator := agg }

/-- `step_day` with the order of the two `pass_downstream()` staging calls
reversed (`infectious` first, then `incubating`); everything else is
unchanged.  Used to settle the order-independence claim. -/
def step_day_swapped (m : Model) : Except Err Model :=
  match m.beta with
  | none => .error .typeError
  | some b =>
    let new_infections := b * m.susceptible.count * m.infectious.count / m.population
    let susceptible1 := m.susceptible.store_pending (-new_infections)
    let incubating1 := m.incubating.store_pending new_infections
    let infOut := m.infectious.passAmount
    let infectious1 := m.infectious.store_pending (-infOut)
    let isolated1 := m.isolated_holding.store_pending infOut
    let incOut := incubating1.passAmount
    let incubating2 := incubating1.store_pending (-incOut)
    let infectious2 := infectious1.store_pending incOut
    let diagnosed := isolated1.pending
    let diagnagg :=
      match m.hospital_door_aggregator.getLast? with
      | none => diagnosed
      | some last => last + diagnosed
    let agg := m.hospital_door_aggregator ++ [diagnagg]
    let isolated2 := { isolated1 with pending := 0 }
    (mapGroupsM (stageGroup diagnosed) m.subgroups).map fun staged =>
      { m with
        total_days := m.total_days + 1,
        susceptible := susceptible1.apply_pending,
        incubating := incubating2.apply_pending,
        infectious := infectious2.apply_pending,
        isolated_holding := isolated2,
        subgroups := staged.map AgeGroup.apply_pending,
        hospital_door_aggregator := agg }

/-- `n` consecutive `step_day` calls (the inner `while` loop of
`run_r0_set` runs `step_day` once per remaining day of the segment). -/
def stepN (m : Model) : ℕ → Except Err Model
  | 0 => .ok m
  | n + 1 => (step_day m).bind fun m1 => stepN m1 n

/-- The segment loop of `run_r0_set`: for each schedule index, look up the
r0 value (an exhausted value list is Python's `IndexError`), set it,
recompute beta, then step until the day counter reaches the segment's
offset (`off - day` more days; none if the offset has already passed, and
the day counter ratchets to `max day off`). -/
def run_go : Model → ℕ → List ℕ → List ℚ → Except Err Model
  | m, _, [], _ => .ok m
  | _, _, _ :: _, [] => .error .indexError
  | m, day, off :: offs, v :: vs =>
    (stepN (recalculate (set_r0 m v)) (off - day)).bind fun m1 =>
      run_go m1 (max day off) offs vs

/-- `ScenarioDrivenModel.run_r0_set`: reset the aggregator to the empty
list, then run the schedule from day counter 0. -/
def run_r0_set (m : Model) (date_offsets : List ℕ) (r0_values : List ℚ) :
    Except Err Model :=
  run_go { m with hospital_door_aggregator := [] } 0 date_offsets r0_values

/-- The output series `gather_sums` writes onto the scenario object. -/
structure Sums where
  out_susceptible : List ℚ
  out_incubating : List ℚ
  out_infectious : List ℚ
  sum_isolated : List ℚ
  sum_noncrit : List ℚ
  sum_icu : List ℚ
  sum_icu_vent : List ℚ
  sum_recovered : List ℚ
  sum_deceased : List ℚ
  sum_hospitalized : List ℚ
  deriving DecidableEq

/-- `np.add` on two equal-length series, element-wise. -/
def npAdd (a b : List ℚ) : List ℚ :=
  List.zipWith (· + ·) a b

/-- `ScenarioDrivenModel.gather_sums`: expose the three top-level histories
and sum every cascade-stage history across the subgroups, starting from a
zero series of length `len(susceptible.domain)`; `sum_hospitalized`
accumulates the three hospital tiers of every subgroup. -/
def gather_sums (m : Model) : Sums :=
  let time_increments := m.susceptible.domain.length
  let zeros : List ℚ := List.replicate time_increments 0
  { out_susceptible := m.susceptible.domain,
    out_incubating := m.incubating.domain,
    out_infectious := m.infectious.domain,
    sum_isolated := m.subgroups.foldl (fun acc g => npAdd acc g.isolated.domain) zeros,
    sum_noncrit := m.subgroups.foldl (fun acc g => npAdd acc g.h_noncrit.domain) zeros,
    sum_icu := m.subgroups.foldl (fun acc g => npAdd acc g.h_icu.domain) zeros,
    sum_icu_vent := m.subgroups.foldl (fun acc g => npAdd acc g.h_icu_vent.domain) zeros,
    sum_recovered := m.subgroups.foldl (fun acc g => npAdd acc g.recovered.domain) zeros,
    sum_deceased := m.subgroups.foldl (fun acc g => npAdd acc g.deceased.domain) zeros,
    sum_hospitalized := m.subgroups.foldl
      (fun acc g => npAdd (npAdd (npAdd acc g.h_noncrit.domain) g.h_icu.domain) g.h_icu_vent.domain)
      zeros }

/-- The force-of-infection term of `step_day`, written on the pre-update
counts. -/
def new_infections (m : Model) (b : ℚ) : ℚ :=
  b * m.susceptible.count * m.infectious.count / m.population

/-- The day's diagnosed cohort as `step_day` reads it: whatever was already
pending on `isolated_holding` plus the day's outflow of `infectious`. -/
def diagnosedOf (m : Model) : ℚ :=
  m.isolated_holding.pending + m.infectious.passAmount

/-- The cumulative aggregator entry `step_day` appends for a day whose
diagnosed cohort is `diagnosed`. -/
def aggNext (m : Model) (diagnosed : ℚ) : ℚ :=
  match m.hospital_door_aggregator.getLast? with
  | none => diagnosed
  | some last => last + diagnosed

/-- The model `step_day` returns on success, given the beta in use and the
staged subgroup list. -/
def commitStep (m : Model) (b : ℚ) (staged : List AgeGroup) : Model :=
  { m with
    total_days := m.total_days + 1,
    susceptible := (m.susceptible.store_pending (-(new_infections m b))).apply_pending,
    incubating :=
      ((m.incubating.store_pending (new_infections m b)).store_pending
        (-(m.incubating.passAmount))).apply_pending,
    infectious :=
      ((m.infectious.store_pending m.incubating.passAmount).store_pending
        (-(m.infectious.passAmount))).apply_pending,
    isolated_holding := { m.isolated_holding with pending := 0 },
    subgroups := staged.map AgeGroup.apply_pending,
    hospital_door_aggregator :=
      m.hospital_door_aggregator ++ [aggNext m (diagnosedOf m)] }

theorem step_day_char (m : Model) (b : ℚ) (hb : m.beta = some b) :
    step_day m =
      (mapGroupsM (stageGroup (diagnosedOf m)) m.subgroups).map (commitStep m b) := by
  unfold step_day commitStep
  rw [hb]
  rfl

theorem step_day_none (m : Model) (hb : m.beta = none) :
    step_day m = .error .typeError := by
  unfold step_day
  rw [hb]

/-- Success elimination for `step_day`: any successful step is a
`commitStep` of a successfully staged subgroup list. -/
theorem step_day_ok_elim {m m' : Model} (h : step_day m = .ok m') :
    ∃ b staged, m.beta = some b ∧
      mapGroupsM (stageGroup (diagnosedOf m)) m.subgroups = .ok staged ∧
      m' = commitStep m b staged := by
  cases hb : m.beta with
  | none => rw [step_day_none m hb] at h; exact absurd h (by simp)
  | some b =>
    rw [step_day_char m b hb] at h
    cases hmap : mapGroupsM (stageGroup (diagnosedOf m)) m.subgroups with
    | error e => rw [hmap] at h; exact absurd h (by simp [Except.map])
    | ok staged =>
      refine ⟨b, staged, rfl, rfl, ?_⟩
      rw [hmap] at h
      simpa [Except.map] using h.symm

/-- A successful `stageGroup` is the pure staging pipeline: stage the
group's diagnosed share, then stage the redistributions. -/
def stagePure (diagnosed : ℚ) (g : AgeGroup) : AgeGroup :=
  AgeGroup.calculate_redistributions
    { g with isolated := g.isolated.store_pending (diagnosed * g.stats.pop_dist) }

theorem stageGroup_ok {diagnosed : ℚ} {g g' : AgeGroup}
    (h : stageGroup diagnosed g = .ok g') : g' = stagePure diagnosed g := by
  unfold stageGroup AgeGroup.apply_infections at h
  by_cases hneg : diagnosed * g.stats.pop_dist < 0
  · rw [if_pos hneg] at h; exact absurd h (by simp [Except.map])
  · rw [if_neg hneg] at h
    simpa [Except.map, stagePure] using h.symm

theorem stageGroup_ok_of_nonneg {diagnosed : ℚ} {g : AgeGroup}
    (h : 0 ≤ diagnosed * g.stats.pop_dist) :
    stageGroup diagnosed g = .ok (stagePure diagnosed g) := by
  unfold stageGroup AgeGroup.apply_infections
  rw [if_neg (not_lt.mpr h)]
  rfl

theorem mapGroupsM_ok {f : AgeGroup → Except Err AgeGroup}
    {pf : AgeGroup → AgeGroup}
    (hf : ∀ g g', f g = .ok g' → g' = pf g) :
    ∀ {gs gs' : List AgeGroup}, mapGroupsM f gs = .ok gs' → gs' = gs.map pf := by
  intro gs
  induction gs with
  | nil => intro gs' h; simpa [mapGroupsM] using h.symm
  | cons g rest ih =>
    intro gs' h
    unfold mapGroupsM at h
    cases hg : f g with
    | error e => rw [hg] at h; exact absurd h (by simp [Except.bind])
    | ok g1 =>
      rw [hg] at h
      cases hrest : mapGroupsM f rest with
      | error e =>
        rw [hrest] at h; exact absurd h (by simp [Except.bind, Except.map])
      | ok rest1 =>
        rw [hrest] at h
        simp only [Except.bind, Except.map, Except.ok.injEq] at h
        rw [← h, List.map_cons, hf g g1 hg, ih hrest]

theorem mapGroupsM_ok_of_all {f : AgeGroup → Except Err AgeGroup}
    {pf : AgeGroup → AgeGroup}
    (hf : ∀ g, f g = .ok (pf g)) :
    ∀ gs : List AgeGroup, mapGroupsM f gs = .ok (gs.map pf) := by
  intro gs
  induction gs with
  | nil => rfl
  | cons g rest ih => simp [mapGroupsM, hf g, ih, Except.bind, Except.map]

/-- On success, the committed subgroup list is the pure per-group pipeline
applied pointwise. -/
theorem step_day_subgroups {m m' : Model} (h : step_day m = .ok m') :
    m'.subgroups =
      m.subgroups.map fun g => (stagePure (diagnosedOf m) g).apply_pending := by
  obtain ⟨b, staged, _, hmap, rfl⟩ := step_day_ok_elim h
  have hst := mapGroupsM_ok (fun g g' hg => stageGroup_ok hg) hmap
  simp [commitStep, hst, List.map_map]

/-- Extract the model from a successful run, with a fallback. -/
def okOr (e : Except Err Model) (d : Model) : Model :=
  match e with
  | .ok v => v
  | .error _ => d

@[simp] theorem ProbState.store_pending_count (s : ProbState) (a : ℚ) :
    (s.store_pending a).count = s.count := rfl

@[simp] theorem ProbState.store_pending_period (s : ProbState) (a : ℚ) :
    (s.store_pending a).period = s.period := rfl

@[simp] theorem ProbState.store_pending_domain (s : ProbState) (a : ℚ) :
    (s.store_pending a).domain = s.domain := rfl

@[simp] theorem ProbState.store_pending_exit_rate (s : ProbState) (a : ℚ) :
    (s.store_pending a).exit_rate = s.exit_rate := rfl

@[simp] theorem ProbState.store_pending_pending (s : ProbState) (a : ℚ) :
    (s.store_pending a).pending = s.pending + a := rfl

@[simp] theorem ProbState.passAmount_store_pending (s : ProbState) (a : ℚ) :
    (s.store_pending a).passAmount = s.passAmount := rfl

@[simp] theorem ProbState.apply_pending_count (s : ProbState) :
    s.apply_pending.count = s.count + s.pending := rfl

@[simp] theorem ProbState.apply_pending_pending (s : ProbState) :
    s.apply_pending.pending = 0 := rfl

@[simp] theorem ProbState.apply_pending_domain (s : ProbState) :
    s.apply_pending.domain = s.domain ++ [s.count + s.pending] := rfl

@[simp] theorem ProbState.apply_pending_period (s : ProbState) :
    s.apply_pending.period = s.period := rfl

@[simp] theorem ProbState.apply_pending_exit_rate (s : ProbState) :
    s.apply_pending.exit_rate = s.exit_rate := rfl

theorem ProbState.store_pending_comm (s : ProbState) (a c : ℚ) :
    (s.store_pending a).store_pending c = (s.store_pending c).store_pending a := by
  simp only [ProbState.store_pending, ProbState.mk.injEq, true_and, and_true]
  ring

/-- A concrete subgroup rate table used to evaluate the theorems: half the
stage populations move on each day, and each stage's outcome split sums
to one. -/
def statsW : SubgroupStats :=
  { pop_dist := 1, iso_rate := 1/2, nc_rate := 1/2, icu_rate := 1/2,
    vent_rate := 1/2,
    iso_to_noncrit := 1/2, iso_to_recovered := 1/2,
    nc_to_icu := 1/2, nc_to_recovered := 1/2,
    icu_to_vent := 1/3, icu_to_recovered := 1/3, icu_to_deceased := 1/3,
    vent_to_recovered := 1/2, vent_to_deceased := 1/2 }

/-- A concrete scenario: 10 people, 7 susceptible, 2 incubating, 1
infectious, both dwell periods 2 days, one age group taking the whole
diagnosed cohort. -/
def scW : Scenario :=
  { initial_r0 := 2, totalpop := 10, init_susceptible := 7, init_infected := 2,
    init_infectious := 1, incubation_period := 2, prediagnosis := 2,
    subgrouprates := [statsW] }

/-- Claim C10: after `__init__` the transmission rate `beta` is `None`, and
`set_r0` updates only `r0` without recomputing `beta`, so stepping a day
before any `recalculate` fails: `new_infections` multiplies `beta` while it
is still `None` (a `TypeError`). -/
theorem c10_step_before_recalculate_fails (sc : Scenario) (v : ℚ) :
    (mkModel sc).beta = none ∧
    (set_r0 (mkModel sc) v).r0 = v ∧
    (set_r0 (mkModel sc) v).beta = none ∧
    step_day (set_r0 (mkModel sc) v) = .error .typeError :=
  ⟨rfl, rfl, rfl, step_day_none _ rfl⟩

/-- Claim C2: running the day with the two `pass_downstream()` staging calls
in either order produces the same final state — same counts, histories,
pending values and `hospital_door_aggregator` — because both stagings read
only pre-update counts and all commits are deferred. -/
theorem c2_pass_downstream_order_irrelevant (m : Model) :
    step_day_swapped m = step_day m := by
  unfold step_day step_day_swapped
  cases m.beta with
  | none => rfl
  | some b =>
    simp only [ProbState.passAmount_store_pending, ProbState.store_pending_pending,
      ProbState.store_pending_count, ProbState.store_pending_period,
      ProbState.store_pending_domain, ProbState.store_pending_exit_rate,
      ProbState.store_pending_comm]

/-- Static fields a successful `step_day` never changes. -/
theorem step_day_preserves {m m' : Model} (h : step_day m = .ok m') :
    m'.beta = m.beta ∧ m'.r0 = m.r0 ∧ m'.population = m.population ∧
    m'.incubating.exit_rate = m.incubating.exit_rate ∧
    m'.infectious.exit_rate = m.infectious.exit_rate ∧
    m'.infectious.period = m.infectious.period ∧
    m'.total_days = m.total_days + 1 := by
  obtain ⟨b, staged, hb, hmap, rfl⟩ := step_day_ok_elim h
  simp [commitStep]

/-- The conclusion of claim C8: committing the day moves exactly the
frequency-dependent force-of-infection term (computed from start-of-day
counts) out of `susceptible` and into `incubating`, on top of whatever was
already pending, with `incubating` also shedding its own downstream
outflow. -/
def forceOfInfectionStep (m m' : Model) (b : ℚ) : Prop :=
  m'.susceptible.count =
    m.susceptible.count + m.susceptible.pending
      - b * m.susceptible.count * m.infectious.count / m.population ∧
  m'.incubating.count =
    m.incubating.count + m.incubating.pending
      + b * m.susceptible.count * m.infectious.count / m.population
      - m.incubating.passAmount

/-- Claim C8: in every successful `step_day`, the day's `new_infections`
equals `beta * susceptible.count * infectious.count / population` over the
pre-update counts and is staged as a subtraction on `susceptible` and an
addition on `incubating`. -/
theorem c8_new_infections_staged (m m' : Model) (b : ℚ) (hb : m.beta = some b)
    (h : step_day m = .ok m') : forceOfInfectionStep m m' b := by
  obtain ⟨b', staged, hb', hmap, rfl⟩ := step_day_ok_elim h
  rw [hb] at hb'
  cases hb'
  constructor
  · simp [commitStep, new_infections]
    ring
  · simp [commitStep, new_infections]
    ring

/-- A concrete model ready to step: the scenario model after `set_r0 2` and
`recalculate` (so `beta = 2/2 = 1`). -/
def w8 : Model := recalculate (set_r0 (mkModel scW) 2)

def w8r : Model := okOr (step_day w8) w8

unseal Rat.add Rat.mul Rat.inv Rat.sub in
theorem c8_new_infections_staged_witness :
    w8.beta = some 1 ∧ step_day w8 = Except.ok w8r ∧ forceOfInfectionStep w8 w8r 1 :=
  ⟨by decide, by rfl, c8_new_infections_staged w8 w8r 1 (by decide) (by rfl)⟩

/-- A compartment that went through exactly one commit relative to its
start-of-day state `s`: the staged delta entered `count`, the new count was
appended to the history, the staged value was reset. -/
def committedStage (s s' : ProbState) : Prop :=
  s'.pending = 0 ∧ s'.domain = s.domain ++ [s'.count]

/-- Every stage of a cascade was committed once. -/
def committedGroup (g g' : AgeGroup) : Prop :=
  committedStage g.isolated g'.isolated ∧
  committedStage g.h_noncrit g'.h_noncrit ∧
  committedStage g.h_icu g'.h_icu ∧
  committedStage g.h_icu_vent g'.h_icu_vent ∧
  committedStage g.recovered g'.recovered ∧
  committedStage g.deceased g'.deceased

/-- The conclusion of claim C6: a day leaves `isolated_holding` uncommitted
(count and history untouched, pending consumed to 0) while the three
top-level compartments and every cascade stage are committed. -/
def stepFrame (m m' : Model) : Prop :=
  m'.isolated_holding.count = m.isolated_holding.count ∧
  m'.isolated_holding.pending = 0 ∧
  m'.isolated_holding.domain = m.isolated_holding.domain ∧
  committedStage m.susceptible m'.susceptible ∧
  committedStage m.incubating m'.incubating ∧
  committedStage m.infectious m'.infectious ∧
  List.Forall₂ committedGroup m.subgroups m'.subgroups

theorem committedStage_apply_pending {s t : ProbState} (h : t.domain = s.domain) :
    committedStage s t.apply_pending := by
  constructor
  · simp
  · simp [h]

theorem committedGroup_stagePure (d : ℚ) (g : AgeGroup) :
    committedGroup g ((stagePure d g).apply_pending) := by
  refine ⟨?_, ?_, ?_, ?_, ?_, ?_⟩ <;>
    exact committedStage_apply_pending (by simp [stagePure, AgeGroup.calculate_redistributions])

/-- Claim C6: every successful `step_day` reads the diagnosed cohort out of
`isolated_holding.pending`, resets that pending to 0 and never commits it —
`isolated_holding.count` and its history are unchanged — while
`susceptible`, `incubating`, `infectious` and all cascade stages are
committed. -/
theorem c6_isolated_holding_uncommitted (m m' : Model)
    (h : step_day m = .ok m') : stepFrame m m' := by
  have hsub := step_day_subgroups h
  obtain ⟨b, staged, hb, hmap, rfl⟩ := step_day_ok_elim h
  refine ⟨by simp [commitStep], by simp [commitStep], by simp [commitStep],
    ?_, ?_, ?_, ?_⟩
  · exact committedStage_apply_pending (by simp [commitStep])
  · exact committedStage_apply_pending (by simp [commitStep])
  · exact committedStage_apply_pending (by simp [commitStep])
  · rw [hsub]
    rw [List.forall₂_map_right_iff]
    exact List.forall₂_same.mpr fun g _ => committedGroup_stagePure _ g

unseal Rat.add Rat.mul Rat.inv Rat.sub in
theorem c6_isolated_holding_uncommitted_witness :
    step_day w8 = Except.ok w8r ∧ stepFrame w8 w8r :=
  ⟨by rfl, c6_isolated_holding_uncommitted w8 w8r (by rfl)⟩

theorem bind_ok_elim {α β : Type} {e : Except Err α} {f : α → Except Err β}
    {b : β} (h : e.bind f = .ok b) : ∃ a, e = .ok a ∧ f a = .ok b := by
  cases e with
  | error er => simp [Except.bind] at h
  | ok a => exact ⟨a, rfl, by simpa [Except.bind] using h⟩

theorem step_day_counters {m m' : Model} (h : step_day m = .ok m') :
    m'.total_days = m.total_days + 1 ∧
    m'.hospital_door_aggregator.length =
      m.hospital_door_aggregator.length + 1 := by
  obtain ⟨b, staged, hb, hmap, rfl⟩ := step_day_ok_elim h
  simp [commitStep]

theorem stepN_counters :
    ∀ (n : ℕ) {m mf : Model}, stepN m n = .ok mf →
      mf.total_days + m.hospital_door_aggregator.length =
        m.total_days + mf.hospital_door_aggregator.length := by
  intro n
  induction n with
  | zero =>
    intro m mf h
    simp only [stepN, Except.ok.injEq] at h
    rw [h]
  | succ k ih =>
    intro m mf h
    obtain ⟨m1, hs, hrest⟩ := bind_ok_elim h
    have h1 := step_day_counters hs
    have h2 := ih hrest
    omega

theorem run_go_counters :
    ∀ (offs : List ℕ) (vs : List ℚ) (day : ℕ) {m mf : Model},
      run_go m day offs vs = .ok mf →
      mf.total_days + m.hospital_door_aggregator.length =
        m.total_days + mf.hospital_door_aggregator.length := by
  intro offs
  induction offs with
  | nil =>
    intro vs day m mf h
    simp only [run_go, Except.ok.injEq] at h
    rw [h]
  | cons off rest ih =>
    intro vs day m mf h
    cases vs with
    | nil => simp [run_go] at h
    | cons v vrest =>
      obtain ⟨m1, hs, hrest⟩ := bind_ok_elim h
      have h1 := stepN_counters (off - day) hs
      have h2 := ih vrest (max day off) hrest
      simp only [recalculate, set_r0] at h1
      omega

/-- Claim C9: `run_r0_set` replaces the aggregator with a fresh empty list
before stepping, so the result is independent of any aggregator contents a
previous run left behind, and the aggregator of a completed run holds
exactly one entry per day stepped in that run. -/
theorem c9_aggregator_is_per_run (m : Model) (l : List ℚ) (offs : List ℕ)
    (vs : List ℚ) :
    run_r0_set { m with hospital_door_aggregator := l } offs vs =
      run_r0_set m offs vs ∧
    ∀ mf, run_r0_set m offs vs = .ok mf →
      mf.total_days = m.total_days + mf.hospital_door_aggregator.length := by
  constructor
  · rfl
  · intro mf h
    have := run_go_counters offs vs 0 h
    simpa using this

def w9 : Model := mkModel scW

def w9f : Model := okOr (run_r0_set w9 [2] [2]) w9

unseal Rat.add Rat.mul Rat.inv Rat.sub in
theorem c9_aggregator_is_per_run_witness :
    run_r0_set { w9 with hospital_door_aggregator := [5] } [2] [2] =
      run_r0_set w9 [2] [2] ∧
    run_r0_set w9 [2] [2] = Except.ok w9f ∧
    w9f.total_days = w9.total_days + w9f.hospital_door_aggregator.length :=
  ⟨(c9_aggregator_is_per_run w9 [5] [2] [2]).1, by rfl,
    (c9_aggregator_is_per_run w9 [5] [2] [2]).2 w9f (by rfl)⟩

theorem step_day_ok_empty {m : Model} {b : ℚ} (hsub : m.subgroups = [])
    (hb : m.beta = some b) :
    ∃ m', step_day m = .ok m' ∧ m'.subgroups = [] ∧ m'.beta = some b := by
  refine ⟨commitStep m b [], ?_, by simp [commitStep], by simp [commitStep, hb]⟩
  rw [step_day_char m b hb, hsub]
  rfl

theorem stepN_ok_empty :
    ∀ (n : ℕ) {m : Model} {b : ℚ}, m.subgroups = [] → m.beta = some b →
      ∃ mf, stepN m n = .ok mf ∧ mf.subgroups = [] ∧ mf.beta = some b := by
  intro n
  induction n with
  | zero => intro m b hsub hb; exact ⟨m, rfl, hsub, hb⟩
  | succ k ih =>
    intro m b hsub hb
    obtain ⟨m1, hs, hsub1, hb1⟩ := step_day_ok_empty hsub hb
    obtain ⟨mf, hrest, hsubf, hbf⟩ := ih hsub1 hb1
    refine ⟨mf, ?_, hsubf, hbf⟩
    simp only [stepN, hs, Except.bind]
    exact hrest

theorem run_go_empty :
    ∀ (offs : List ℕ) (vs : List ℚ) (day : ℕ) {m : Model},
      m.subgroups = [] →
      (offs.length ≤ vs.length → ∃ mf, run_go m day offs vs = .ok mf) ∧
      (vs.length < offs.length →
        run_go m day offs vs = .error .indexError) := by
  intro offs
  induction offs with
  | nil =>
    intro vs day m hsub
    exact ⟨fun _ => ⟨m, rfl⟩, fun hlt => absurd hlt (by simp)⟩
  | cons off rest ih =>
    intro vs day m hsub
    cases vs with
    | nil =>
      refine ⟨fun hle => absurd hle (by simp), fun _ => rfl⟩
    | cons v vrest =>
      have hsub1 : (recalculate (set_r0 m v)).subgroups = [] := hsub
      have hb1 : (recalculate (set_r0 m v)).beta = some (v / m.infectious.period) := rfl
      obtain ⟨m1, hstep, hsubm1, _⟩ := stepN_ok_empty (off - day) hsub1 hb1
      have hrec := ih vrest (max day off) hsubm1
      constructor
      · intro hle
        obtain ⟨mf, hok⟩ := hrec.1 (by simpa using hle)
        exact ⟨mf, by simp only [run_go, hstep, Except.bind]; exact hok⟩
      · intro hlt
        have herr := hrec.2 (by simpa using hlt)
        simp only [run_go, hstep, Except.bind]
        exact herr

/-- Claim C3 (amended): `run_r0_set` performs no schedule validation.  On a
model with no subgroups (so no day-step can fail for unrelated reasons) it
completes without any error whenever the value list is at least as long as
the offset list — in particular for offsets that are not strictly
increasing, whose stale segments are silently skipped — and when the offsets
outnumber the values it fails with the index error of `r0_values[itr]`, not
with a `ConfigurationError` (no such check exists in the code). -/
theorem c3_no_schedule_validation (m : Model) (offs : List ℕ) (vs : List ℚ)
    (hsub : m.subgroups = []) :
    (offs.length ≤ vs.length → ∃ mf, run_r0_set m offs vs = .ok mf) ∧
    (vs.length < offs.length → run_r0_set m offs vs = .error .indexError) :=
  run_go_empty offs vs 0
    (show ({ m with hospital_door_aggregator := [] } : Model).subgroups = []
      from hsub)

/-- The scenario of `scW` with no subgroups. -/
def scE : Scenario := { scW with subgrouprates := [] }

def wE : Model := mkModel scE

def wEf : Model := okOr (run_r0_set wE [2, 1] [1, 1]) wE

unseal Rat.add Rat.mul Rat.inv Rat.sub in
/-- Claim C3 is false on the code: a schedule whose offsets are not strictly
increasing does not raise anything — the run completes normally. -/
theorem c3_counterexample_no_error_on_bad_offsets :
    ¬ List.Chain' (fun a b : ℕ => a < b) [2, 1] ∧
    run_r0_set wE [2, 1] [1, 1] = Except.ok wEf := by
  constructor
  · simp [List.chain'_cons]
  · rfl

unseal Rat.add Rat.mul Rat.inv Rat.sub in
theorem c3_no_schedule_validation_witness :
    wE.subgroups = [] ∧
    (∃ mf, run_r0_set wE [2, 1] [1, 1] = Except.ok mf) ∧
    run_r0_set wE [1, 2] [1] = Except.error Err.indexError :=
  ⟨rfl, (c3_no_schedule_validation wE [2, 1] [1, 1] rfl).1 (by decide),
    (c3_no_schedule_validation wE [1, 2] [1] rfl).2 (by decide)⟩

/-- `stepN`, additionally recording the `beta` in effect at each executed
`step_day` (recorded before the step). -/
def stepN_trk : Model → ℕ → Except Err (Model × List (Option ℚ))
  | m, 0 => .ok (m, [])
  | m, n + 1 =>
    (step_day m).bind fun m1 =>
      (stepN_trk m1 n).map fun p => (p.1, m.beta :: p.2)

/-- `run_go`, additionally recording the `beta` in effect at each executed
`step_day`. -/
def run_go_trk : Model → ℕ → List ℕ → List ℚ → Except Err (Model × List (Option ℚ))
  | m, _, [], _ => .ok (m, [])
  | _, _, _ :: _, [] => .error .indexError
  | m, day, off :: offs, v :: vs =>
    (stepN_trk (recalculate (set_r0 m v)) (off - day)).bind fun p =>
      (run_go_trk p.1 (max day off) offs vs).map fun q => (q.1, p.2 ++ q.2)

/-- `run_r0_set`, additionally recording the `beta` in effect at each
executed `step_day`. -/
def run_r0_set_trk (m : Model) (date_offsets : List ℕ) (r0_values : List ℚ) :
    Except Err (Model × List (Option ℚ)) :=
  run_go_trk { m with hospital_door_aggregator := [] } 0 date_offsets r0_values

/-- The schedule's prescription: each day stepped within segment `itr` must
run under `beta = r0_values[itr] / p` where `p` is the infectious
compartment's period. -/
def expectedBetas (p : ℚ) : ℕ → List ℕ → List ℚ → List (Option ℚ)
  | _, [], _ => []
  | _, _ :: _, [] => []
  | day, off :: offs, v :: vs =>
    List.replicate (off - day) (some (v / p)) ++
      expectedBetas p (max day off) offs vs

theorem stepN_trk_ok :
    ∀ (n : ℕ) {m mf : Model}, stepN m n = .ok mf →
      stepN_trk m n = .ok (mf, List.replicate n m.beta) ∧
      mf.beta = m.beta ∧ mf.infectious.period = m.infectious.period := by
  intro n
  induction n with
  | zero =>
    intro m mf h
    simp only [stepN, Except.ok.injEq] at h
    rw [h]
    exact ⟨rfl, rfl, rfl⟩
  | succ k ih =>
    intro m mf h
    obtain ⟨m1, hs, hrest⟩ := bind_ok_elim h
    obtain ⟨hb1, _, _, _, _, hp1, _⟩ := step_day_preserves hs
    obtain ⟨htr, hbf, hpf⟩ := ih hrest
    refine ⟨?_, hbf.trans hb1, hpf.trans hp1⟩
    simp only [stepN_trk, hs, Except.bind, htr, Except.map, List.replicate, hb1]

theorem run_go_trk_ok :
    ∀ (offs : List ℕ) (vs : List ℚ) (day : ℕ) {m mf : Model},
      run_go m day offs vs = .ok mf →
      run_go_trk m day offs vs =
        .ok (mf, expectedBetas m.infectious.period day offs vs) ∧
      mf.infectious.period = m.infectious.period := by
  intro offs
  induction offs with
  | nil =>
    intro vs day m mf h
    simp only [run_go, Except.ok.injEq] at h
    rw [h]
    exact ⟨rfl, rfl⟩
  | cons off rest ih =>
    intro vs day m mf h
    cases vs with
    | nil => simp [run_go] at h
    | cons v vrest =>
      obtain ⟨m1, hstep, hrest⟩ := bind_ok_elim h
      obtain ⟨htr, hb1, hp1⟩ := stepN_trk_ok (off - day) hstep
      obtain ⟨htr2, hp2⟩ := ih vrest (max day off) hrest
      have hp1' : m1.infectious.period = m.infectious.period := hp1
      constructor
      · simp only [run_go_trk, htr, Except.bind, htr2, hp1', Except.map,
          expectedBetas]
        rfl
      · exact hp2.trans hp1'

/-- Claim C4: whenever `r0` changes inside `run_r0_set`, `beta` is
recomputed as `r0 / infectious.period` before any day is stepped under the
new value: the recorded per-step betas of a completed run are exactly, for
each schedule segment, that segment's r0 value divided by the infectious
period. -/
theorem c4_beta_recomputed_per_segment (m : Model) (offs : List ℕ)
    (vs : List ℚ) (mf : Model) (h : run_r0_set m offs vs = .ok mf) :
    run_r0_set_trk m offs vs =
      .ok (mf, expectedBetas m.infectious.period 0 offs vs) :=
  (run_go_trk_ok offs vs 0 h).1

def w4f : Model := okOr (run_r0_set w9 [2, 3] [2, 1]) w9

unseal Rat.add Rat.mul Rat.inv Rat.sub in
theorem c4_beta_recomputed_per_segment_witness :
    run_r0_set w9 [2, 3] [2, 1] = Except.ok w4f ∧
    run_r0_set_trk w9 [2, 3] [2, 1] =
      Except.ok (w4f, expectedBetas w9.infectious.period 0 [2, 3] [2, 1]) :=
  ⟨by rfl, c4_beta_recomputed_per_segment w9 [2, 3] [2, 1] w4f (by rfl)⟩

/-- Every stage history of the cascade has length `n`. -/
def groupLens (g : AgeGroup) (n : ℕ) : Prop :=
  g.isolated.domain.length = n ∧ g.h_noncrit.domain.length = n ∧
  g.h_icu.domain.length = n ∧ g.h_icu_vent.domain.length = n ∧
  g.recovered.domain.length = n ∧ g.deceased.domain.length = n

/-- Every history in the model holds one snapshot per elapsed day plus the
initial one. -/
def lensOk (m : Model) : Prop :=
  m.susceptible.domain.length = m.total_days + 1 ∧
  m.incubating.domain.length = m.total_days + 1 ∧
  m.infectious.domain.length = m.total_days + 1 ∧
  ∀ g ∈ m.subgroups, groupLens g (m.total_days + 1)

theorem step_day_lensOk {m m' : Model} (h : step_day m = .ok m')
    (hl : lensOk m) : lensOk m' := by
  have hsub := step_day_subgroups h
  obtain ⟨b, staged, hb, hmap, rfl⟩ := step_day_ok_elim h
  obtain ⟨h1, h2, h3, h4⟩ := hl
  refine ⟨by simp [commitStep, h1], by simp [commitStep, h2],
    by simp [commitStep, h3], ?_⟩
  intro g' hg'
  rw [show (commitStep m b staged).subgroups =
      m.subgroups.map fun g => (stagePure (diagnosedOf m) g).apply_pending
      from hsub] at hg'
  obtain ⟨g, hg, rfl⟩ := List.mem_map.mp hg'
  obtain ⟨k1, k2, k3, k4, k5, k6⟩ := h4 g hg
  have htd : (commitStep m b staged).total_days = m.total_days + 1 := by
    simp [commitStep]
  rw [htd]
  exact ⟨by simp [stagePure, AgeGroup.apply_pending,
      AgeGroup.calculate_redistributions, k1],
    by simp [stagePure, AgeGroup.apply_pending,
      AgeGroup.calculate_redistributions, k2],
    by simp [stagePure, AgeGroup.apply_pending,
      AgeGroup.calculate_redistributions, k3],
    by simp [stagePure, AgeGroup.apply_pending,
      AgeGroup.calculate_redistributions, k4],
    by simp [stagePure, AgeGroup.apply_pending,
      AgeGroup.calculate_redistributions, k5],
    by simp [stagePure, AgeGroup.apply_pending,
      AgeGroup.calculate_redistributions, k6]⟩

theorem stepN_lensOk :
    ∀ (n : ℕ) {m mf : Model}, stepN m n = .ok mf → lensOk m → lensOk mf := by
  intro n
  induction n with
  | zero =>
    intro m mf h hl
    simp only [stepN, Except.ok.injEq] at h
    rw [← h]
    exact hl
  | succ k ih =>
    intro m mf h hl
    obtain ⟨m1, hs, hrest⟩ := bind_ok_elim h
    exact ih hrest (step_day_lensOk hs hl)

theorem run_go_lensOk :
    ∀ (offs : List ℕ) (vs : List ℚ) (day : ℕ) {m mf : Model},
      run_go m day offs vs = .ok mf → lensOk m → lensOk mf := by
  intro offs
  induction offs with
  | nil =>
    intro vs day m mf h hl
    simp only [run_go, Except.ok.injEq] at h
    rw [← h]
    exact hl
  | cons off rest ih =>
    intro vs day m mf h hl
    cases vs with
    | nil => simp [run_go] at h
    | cons v vrest =>
      obtain ⟨m1, hstep, hrest⟩ := bind_ok_elim h
      exact ih vrest (max day off) hrest (stepN_lensOk (off - day) hstep hl)

theorem mkModel_lensOk (sc : Scenario) : lensOk (mkModel sc) := by
  refine ⟨rfl, rfl, rfl, ?_⟩
  intro g hg
  obtain ⟨s, _, rfl⟩ := List.mem_map.mp hg
  exact ⟨rfl, rfl, rfl, rfl, rfl, rfl⟩

theorem foldl_npAdd_length (sel : AgeGroup → List ℚ) :
    ∀ (gs : List AgeGroup) (acc : List ℚ) (n : ℕ), acc.length = n →
      (∀ g ∈ gs, (sel g).length = n) →
      (gs.foldl (fun a g => npAdd a (sel g)) acc).length = n := by
  intro gs
  induction gs with
  | nil => intro acc n ha _; exact ha
  | cons g rest ih =>
    intro acc n ha hall
    refine ih (npAdd acc (sel g)) n ?_ fun g' hg' => hall g' (by simp [hg'])
    simp [npAdd, ha, hall g (by simp)]

theorem foldl_npAdd3_length (s1 s2 s3 : AgeGroup → List ℚ) :
    ∀ (gs : List AgeGroup) (acc : List ℚ) (n : ℕ), acc.length = n →
      (∀ g ∈ gs, (s1 g).length = n ∧ (s2 g).length = n ∧ (s3 g).length = n) →
      (gs.foldl (fun a g => npAdd (npAdd (npAdd a (s1 g)) (s2 g)) (s3 g))
        acc).length = n := by
  intro gs
  induction gs with
  | nil => intro acc n ha _; exact ha
  | cons g rest ih =>
    intro acc n ha hall
    refine ih _ n ?_ fun g' hg' => hall g' (by simp [hg'])
    obtain ⟨e1, e2, e3⟩ := hall g (by simp)
    simp [npAdd, ha, e1, e2, e3]

/-- The conclusion of claim C7: all ten output series of `gather_sums` have
length `n`. -/
def seriesLensOk (s : Sums) (n : ℕ) : Prop :=
  s.out_susceptible.length = n ∧ s.out_incubating.length = n ∧
  s.out_infectious.length = n ∧ s.sum_isolated.length = n ∧
  s.sum_noncrit.length = n ∧ s.sum_icu.length = n ∧
  s.sum_icu_vent.length = n ∧ s.sum_recovered.length = n ∧
  s.sum_deceased.length = n ∧ s.sum_hospitalized.length = n

/-- Claim C7: after a completed run from a freshly constructed model,
`gather_sums` produces series that all have exactly `total_days + 1`
entries. -/
theorem c7_series_lengths (sc : Scenario) (offs : List ℕ) (vs : List ℚ)
    (mf : Model) (h : run_r0_set (mkModel sc) offs vs = .ok mf) :
    seriesLensOk (gather_sums mf) (mf.total_days + 1) := by
  have hl : lensOk mf := run_go_lensOk offs vs 0 h (mkModel_lensOk sc)
  obtain ⟨h1, h2, h3, h4⟩ := hl
  have hz : (List.replicate mf.susceptible.domain.length (0 : ℚ)).length =
      mf.total_days + 1 := by simp [h1]
  refine ⟨h1, h2, h3, ?_, ?_, ?_, ?_, ?_, ?_, ?_⟩
  · exact foldl_npAdd_length _ _ _ _ hz fun g hg => (h4 g hg).1
  · exact foldl_npAdd_length _ _ _ _ hz fun g hg => (h4 g hg).2.1
  · exact foldl_npAdd_length _ _ _ _ hz fun g hg => (h4 g hg).2.2.1
  · exact foldl_npAdd_length _ _ _ _ hz fun g hg => (h4 g hg).2.2.2.1
  · exact foldl_npAdd_length _ _ _ _ hz fun g hg => (h4 g hg).2.2.2.2.1
  · exact foldl_npAdd_length _ _ _ _ hz fun g hg => (h4 g hg).2.2.2.2.2
  · exact foldl_npAdd3_length _ _ _ _ _ _ hz fun g hg =>
      ⟨(h4 g hg).2.1, (h4 g hg).2.2.1, (h4 g hg).2.2.2.1⟩

unseal Rat.add Rat.mul Rat.inv Rat.sub in
theorem c7_series_lengths_witness :
    run_r0_set (mkModel scW) [2] [2] = Except.ok w9f ∧
    seriesLensOk (gather_sums w9f) (w9f.total_days + 1) :=
  ⟨by rfl, c7_series_lengths scW [2] [2] w9f (by rfl)⟩

/-- Static sanity conditions on a model's parameters: positive population,
per-day exit fractions inside `[0, 1]` (equivalently, dwell periods of at
least one day), a positive infectious period, and non-negative population
distribution weights. -/
def StaticOk (m : Model) : Prop :=
  0 < m.population ∧
  0 ≤ m.incubating.exit_rate ∧ m.incubating.exit_rate ≤ 1 ∧
  0 ≤ m.infectious.exit_rate ∧ m.infectious.exit_rate ≤ 1 ∧
  0 < m.infectious.period ∧
  ∀ g ∈ m.subgroups, 0 ≤ g.stats.pop_dist

/-- The run invariant behind the monotone-aggregator property: the top
chain's committed counts are non-negative and sum to at most `T`, nothing is
left staged between days, and the aggregator collected so far is
non-decreasing. -/
def TopInv (T : ℚ) (m : Model) : Prop :=
  0 ≤ m.susceptible.count ∧ 0 ≤ m.incubating.count ∧ 0 ≤ m.infectious.count ∧
  m.susceptible.count + m.incubating.count + m.infectious.count ≤ T ∧
  m.susceptible.pending = 0 ∧ m.incubating.pending = 0 ∧
  m.infectious.pending = 0 ∧ m.isolated_holding.pending = 0 ∧
  List.Chain' (fun a c : ℚ => a ≤ c) m.hospital_door_aggregator

theorem subgroups_stats_mem {m m' : Model} (h : step_day m = .ok m')
    {g' : AgeGroup} (hg' : g' ∈ m'.subgroups) :
    ∃ g ∈ m.subgroups, g'.stats = g.stats := by
  rw [step_day_subgroups h] at hg'
  obtain ⟨g, hg, rfl⟩ := List.mem_map.mp hg'
  exact ⟨g, hg, rfl⟩

theorem step_day_StaticOk {m m' : Model} (h : step_day m = .ok m')
    (hst : StaticOk m) : StaticOk m' := by
  obtain ⟨hpop, he1, he2, hi1, hi2, hp, hpd⟩ := hst
  have hsub : ∀ g' ∈ m'.subgroups, 0 ≤ g'.stats.pop_dist := by
    intro g' hg'
    obtain ⟨g, hg, hgs⟩ := subgroups_stats_mem h hg'
    rw [hgs]
    exact hpd g hg
  obtain ⟨b, staged, hb, hmap, rfl⟩ := step_day_ok_elim h
  exact ⟨hpop, he1, he2, hi1, hi2, hp, hsub⟩

theorem step_day_TopInv {T b : ℚ} {m m' : Model} (h : step_day m = .ok m')
    (hb : m.beta = some b) (hst : StaticOk m) (hinv : TopInv T m)
    (hb0 : 0 ≤ b) (hbT : b * T ≤ m.population) : TopInv T m' := by
  obtain ⟨hpop, he1, he2, hi1, hi2, hp, hpd⟩ := hst
  obtain ⟨hS, hE, hI, hsum, pS, pE, pI, pH, hagg⟩ := hinv
  obtain ⟨b', staged, hb', hmap, rfl⟩ := step_day_ok_elim h
  rw [hb] at hb'
  cases hb'
  have hIT : m.infectious.count ≤ T := by linarith
  have hni0 : 0 ≤ new_infections m b := by
    unfold new_infections
    positivity
  have hniS : new_infections m b ≤ m.susceptible.count := by
    unfold new_infections
    rw [div_le_iff₀ hpop]
    have hbI : b * m.infectious.count ≤ m.population := by
      calc b * m.infectious.count ≤ b * T := by
            exact mul_le_mul_of_nonneg_left hIT hb0
        _ ≤ m.population := hbT
    calc b * m.susceptible.count * m.infectious.count
        = m.susceptible.count * (b * m.infectious.count) := by ring
      _ ≤ m.susceptible.count * m.population :=
          mul_le_mul_of_nonneg_left hbI hS
      _ = m.susceptible.count * m.population := rfl
  have hincPass0 : 0 ≤ m.incubating.passAmount :=
    mul_nonneg hE he1
  have hincPassE : m.incubating.passAmount ≤ m.incubating.count := by
    unfold ProbState.passAmount
    nlinarith
  have hinfPass0 : 0 ≤ m.infectious.passAmount :=
    mul_nonneg hI hi1
  have hinfPassI : m.infectious.passAmount ≤ m.infectious.count := by
    unfold ProbState.passAmount
    nlinarith
  have hdiag : diagnosedOf m = m.infectious.passAmount := by
    unfold diagnosedOf
    rw [pH, zero_add]
  have hdiag0 : 0 ≤ diagnosedOf m := by rw [hdiag]; exact hinfPass0
  refine ⟨?_, ?_, ?_, ?_, by simp [commitStep], by simp [commitStep],
    by simp [commitStep], by simp [commitStep], ?_⟩
  · simp only [commitStep]
    simp [pS]
    linarith
  · simp only [commitStep]
    simp [pE]
    linarith
  · simp only [commitStep]
    simp [pI]
    linarith
  · simp only [commitStep]
    simp [pS, pE, pI]
    linarith
  · simp only [commitStep]
    rw [List.chain'_append]
    refine ⟨hagg, List.chain'_singleton _, ?_⟩
    intro x hx y hy
    simp only [List.head?_cons, Option.mem_def, Option.some.injEq] at hy
    unfold aggNext at hy
    cases hL : m.hospital_door_aggregator.getLast? with
    | none => simp [hL] at hx
    | some last =>
      rw [hL] at hx hy
      simp only [Option.mem_def, Option.some.injEq] at hx
      simp only at hy
      rw [← hy, ← hx]
      linarith

theorem stepN_TopInv {T b : ℚ} :
    ∀ (n : ℕ) {m mf : Model}, stepN m n = .ok mf → m.beta = some b →
      0 ≤ b → b * T ≤ m.population → StaticOk m → TopInv T m →
      TopInv T mf ∧ StaticOk mf ∧ mf.population = m.population ∧
        mf.infectious.period = m.infectious.period := by
  intro n
  induction n with
  | zero =>
    intro m mf h _ _ _ hst hinv
    simp only [stepN, Except.ok.injEq] at h
    rw [← h]
    exact ⟨hinv, hst, rfl, rfl⟩
  | succ k ih =>
    intro m mf h hb hb0 hbT hst hinv
    obtain ⟨m1, hs, hrest⟩ := bind_ok_elim h
    obtain ⟨hb1, _, hpop1, _, _, hp1, _⟩ := step_day_preserves hs
    have hinv1 := step_day_TopInv hs hb hst hinv hb0 hbT
    have hst1 := step_day_StaticOk hs hst
    obtain ⟨hif, hsf, hpopf, hpf⟩ :=
      ih hrest (hb1.trans hb) hb0 (by rw [hpop1]; exact hbT) hst1 hinv1
    exact ⟨hif, hsf, hpopf.trans hpop1, hpf.trans hp1⟩

theorem run_go_TopInv {T : ℚ} :
    ∀ (offs : List ℕ) (vs : List ℚ) (day : ℕ) {m mf : Model},
      run_go m day offs vs = .ok mf → StaticOk m → TopInv T m →
      (∀ v ∈ vs, 0 ≤ v ∧ v * T ≤ m.population * m.infectious.period) →
      TopInv T mf := by
  intro offs
  induction offs with
  | nil =>
    intro vs day m mf h hst hinv _
    simp only [run_go, Except.ok.injEq] at h
    rw [← h]
    exact hinv
  | cons off rest ih =>
    intro vs day m mf h hst hinv hvs
    cases vs with
    | nil => simp [run_go] at h
    | cons v vrest =>
      obtain ⟨m1, hstep, hrest⟩ := bind_ok_elim h
      obtain ⟨hv0, hvT⟩ := hvs v (by simp)
      have hpop := hst.1
      have hp := hst.2.2.2.2.2.1
      have hb : (recalculate (set_r0 m v)).beta =
          some (v / m.infectious.period) := rfl
      have hb0 : 0 ≤ v / m.infectious.period := div_nonneg hv0 hp.le
      have hbT : (v / m.infectious.period) * T ≤
          (recalculate (set_r0 m v)).population := by
        show (v / m.infectious.period) * T ≤ m.population
        rw [div_mul_eq_mul_div, div_le_iff₀ hp]
        calc v * T ≤ m.population * m.infectious.period := hvT
          _ = m.population * m.infectious.period := rfl
      obtain ⟨hinv1, hst1, hpop1, hp1⟩ :=
        stepN_TopInv (off - day) hstep hb hb0 hbT hst hinv
      refine ih vrest (max day off) hrest hst1 hinv1 ?_
      intro v' hv'
      obtain ⟨h1, h2⟩ := hvs v' (by simp [hv'])
      refine ⟨h1, ?_⟩
      rw [hpop1, hp1]
      exact h2

/-- Claim C5 (amended): for scenarios with non-negative initial counts, dwell
periods of at least one day, a positive population, non-negative group
weights, and an r0 schedule whose values satisfy
`v * (initial top-chain population) ≤ population * prediagnosis` (so the
force of infection can never overdraw `susceptible`), the
`hospital_door_aggregator` of a completed `run_r0_set` is monotonically
non-decreasing.  Without such bounds the property fails, see the
counterexample. -/
theorem c5_aggregator_monotone (sc : Scenario) (offs : List ℕ) (vs : List ℚ)
    (mf : Model) (h : run_r0_set (mkModel sc) offs vs = .ok mf)
    (h1 : 0 ≤ sc.init_susceptible) (h2 : 0 ≤ sc.init_infected)
    (h3 : 0 ≤ sc.init_infectious) (h4 : 1 ≤ sc.incubation_period)
    (h5 : 1 ≤ sc.prediagnosis) (h6 : 0 < sc.totalpop)
    (h7 : ∀ s ∈ sc.subgrouprates, 0 ≤ s.pop_dist)
    (h8 : ∀ v ∈ vs, 0 ≤ v ∧
      v * (sc.init_susceptible + sc.init_infected + sc.init_infectious) ≤
        sc.totalpop * sc.prediagnosis) :
    List.Chain' (fun a c : ℚ => a ≤ c) mf.hospital_door_aggregator := by
  have hpi : 0 < sc.prediagnosis := lt_of_lt_of_le one_pos h5
  have hci : 0 < sc.incubation_period := lt_of_lt_of_le one_pos h4
  have hst : StaticOk { mkModel sc with hospital_door_aggregator := [] } := by
    refine ⟨h6, ?_, ?_, ?_, ?_, hpi, ?_⟩
    · show (0 : ℚ) ≤ 1 / sc.incubation_period
      positivity
    · show 1 / sc.incubation_period ≤ 1
      rw [div_le_one hci]
      exact h4
    · show (0 : ℚ) ≤ 1 / sc.prediagnosis
      positivity
    · show 1 / sc.prediagnosis ≤ 1
      rw [div_le_one hpi]
      exact h5
    · intro g hg
      obtain ⟨s, hs, rfl⟩ := List.mem_map.mp hg
      exact h7 s hs
  have hinv : TopInv
      (sc.init_susceptible + sc.init_infected + sc.init_infectious)
      { mkModel sc with hospital_door_aggregator := [] } := by
    exact ⟨h1, h2, h3, le_refl _, rfl, rfl, rfl, rfl, List.chain'_nil⟩
  have := run_go_TopInv offs vs 0 h hst hinv (by
    intro v hv
    exact h8 v hv)
  exact this.2.2.2.2.2.2.2.2

unseal Rat.add Rat.mul Rat.inv Rat.sub in
theorem c5_aggregator_monotone_witness :
    run_r0_set (mkModel scW) [2] [2] = Except.ok w9f ∧
    List.Chain' (fun a c : ℚ => a ≤ c) w9f.hospital_door_aggregator :=
  ⟨by rfl, c5_aggregator_monotone scW [2] [2] w9f (by rfl) (by decide)
    (by decide) (by decide) (by decide) (by decide) (by decide) (by decide)
    (by decide)⟩

/-- The scenario driving the monotonicity counterexample: one person
susceptible, one infectious, population parameter 1, both dwell periods one
day, no subgroups, and an extreme `r0 = 10` held for five days (so
`beta = 10` and the force of infection overdraws `susceptible` into negative
counts). -/
def scCX : Scenario :=
  { initial_r0 := 10, totalpop := 1, init_susceptible := 1, init_infected := 0,
    init_infectious := 1, incubation_period := 1, prediagnosis := 1,
    subgrouprates := [] }

def wCX : Model := mkModel scCX

def wCXf : Model := okOr (run_r0_set wCX [5] [10]) wCX

unseal Rat.add Rat.mul Rat.inv Rat.sub in
/-- Claim C5 as stated is false on the code: this run completes (no error is
raised) and its aggregator ends `..., 11, -889`, a strict decrease, because
nothing in `step_day` keeps the force of infection from overdrawing
`susceptible`, after which negative counts propagate down the chain and a
negative `diagnosed` is appended. -/
theorem c5_counterexample_aggregator_decreases :
    run_r0_set wCX [5] [10] = Except.ok wCXf ∧
    wCXf.hospital_door_aggregator = [1, 1, 11, 11, -889] ∧
    ¬ List.Chain' (fun a c : ℚ => a ≤ c) wCXf.hospital_door_aggregator := by
  have hagg : wCXf.hospital_door_aggregator = [1, 1, 11, 11, -889] := by rfl
  refine ⟨by rfl, hagg, ?_⟩
  rw [hagg]
  intro hchain
  rw [List.chain'_cons, List.chain'_cons, List.chain'_cons,
    List.chain'_cons] at hchain
  have h11 : (11 : ℚ) ≤ -889 := hchain.2.2.2.1
  norm_num at h11

/-- The day-`d` entry of a compartment's history (0 out of range). -/
def ProbState.histAt (s : ProbState) (d : ℕ) : ℚ :=
  s.domain.getD d 0

/-- The committed population currently inside a cascade, across all six
stages. -/
def groupCountSum (g : AgeGroup) : ℚ :=
  g.isolated.count + g.h_noncrit.count + g.h_icu.count + g.h_icu_vent.count +
  g.recovered.count + g.deceased.count

/-- The day-`d` population of a cascade, read from the stage histories. -/
def groupHistAt (g : AgeGroup) (d : ℕ) : ℚ :=
  g.isolated.histAt d + g.h_noncrit.histAt d + g.h_icu.histAt d +
  g.h_icu_vent.histAt d + g.recovered.histAt d + g.deceased.histAt d

/-- The total committed population of the model right now: top chain plus
every cascade stage (`isolated_holding` never accumulates, claim C6). -/
def currentSum (m : Model) : ℚ :=
  m.susceptible.count + m.incubating.count + m.infectious.count +
  (m.subgroups.map groupCountSum).sum

/-- The total day-`d` population of the model as recorded in the histories:
`susceptible[d] + incubating[d] + infectious[d]` plus every cascade-stage
count at day `d` summed over the age groups. -/
def daySum (m : Model) (d : ℕ) : ℚ :=
  m.susceptible.histAt d + m.incubating.histAt d + m.infectious.histAt d +
  (m.subgroups.map fun g => groupHistAt g d).sum

def zeroGroupPendings (g : AgeGroup) : Prop :=
  g.isolated.pending = 0 ∧ g.h_noncrit.pending = 0 ∧ g.h_icu.pending = 0 ∧
  g.h_icu_vent.pending = 0 ∧ g.recovered.pending = 0 ∧ g.deceased.pending = 0

/-- Between days, nothing is staged anywhere. -/
def zeroPendings (m : Model) : Prop :=
  m.susceptible.pending = 0 ∧ m.incubating.pending = 0 ∧
  m.infectious.pending = 0 ∧ m.isolated_holding.pending = 0 ∧
  ∀ g ∈ m.subgroups, zeroGroupPendings g

/-- Each stage's clinical outcome split is a full probability split. -/
def goodSplits (s : SubgroupStats) : Prop :=
  s.iso_to_noncrit + s.iso_to_recovered = 1 ∧
  s.nc_to_icu + s.nc_to_recovered = 1 ∧
  s.icu_to_vent + s.icu_to_recovered + s.icu_to_deceased = 1 ∧
  s.vent_to_recovered + s.vent_to_deceased = 1

/-- A conservation-compatible configuration: the group weights split the
diagnosed cohort exactly, and every cascade stage's outcome split is
complete. -/
def goodModel (m : Model) : Prop :=
  (m.subgroups.map fun g => g.stats.pop_dist).sum = 1 ∧
  ∀ g ∈ m.subgroups, goodSplits g.stats

/-- All histories in the model have the same length as `susceptible`'s. -/
def alignedDoms (m : Model) : Prop :=
  m.incubating.domain.length = m.susceptible.domain.length ∧
  m.infectious.domain.length = m.susceptible.domain.length ∧
  ∀ g ∈ m.subgroups, groupLens g m.susceptible.domain.length

/-- The conservation invariant: clean staging, a conservation-compatible
configuration, aligned histories, and a total population equal to `T` both
now and at every recorded day. -/
def ConsInv (T : ℚ) (m : Model) : Prop :=
  zeroPendings m ∧ goodModel m ∧ alignedDoms m ∧ currentSum m = T ∧
  ∀ d, d < m.susceptible.domain.length → daySum m d = T

theorem groupCountSum_stage (dg : ℚ) (g : AgeGroup)
    (hz : zeroGroupPendings g) (hs : goodSplits g.stats) :
    groupCountSum ((stagePure dg g).apply_pending) =
      groupCountSum g + dg * g.stats.pop_dist := by
  obtain ⟨z1, z2, z3, z4, z5, z6⟩ := hz
  obtain ⟨s1, s2, s3, s4⟩ := hs
  simp [groupCountSum, stagePure, AgeGroup.calculate_redistributions,
    AgeGroup.apply_pending, z1, z2, z3, z4, z5, z6]
  linear_combination (g.isolated.count * g.stats.iso_rate) * s1 +
    (g.h_noncrit.count * g.stats.nc_rate) * s2 +
    (g.h_icu.count * g.stats.icu_rate) * s3 +
    (g.h_icu_vent.count * g.stats.vent_rate) * s4

theorem groupsSum_stage (dg : ℚ) :
    ∀ gs : List AgeGroup,
      (∀ g ∈ gs, zeroGroupPendings g ∧ goodSplits g.stats) →
      ((gs.map fun g => (stagePure dg g).apply_pending).map
        groupCountSum).sum =
        (gs.map groupCountSum).sum +
          dg * (gs.map fun g => g.stats.pop_dist).sum := by
  intro gs
  induction gs with
  | nil => intro _; simp
  | cons g rest ih =>
    intro hall
    obtain ⟨hz, hs⟩ := hall g (by simp)
    simp only [List.map_cons, List.sum_cons]
    rw [groupCountSum_stage dg g hz hs, ih fun g' hg' => hall g' (by simp [hg'])]
    ring

theorem histAt_apply_pending_lt {s t : ProbState} (hdom : t.domain = s.domain)
    {n d : ℕ} (hlen : s.domain.length = n) (hd : d < n) :
    t.apply_pending.histAt d = s.histAt d := by
  unfold ProbState.histAt
  rw [ProbState.apply_pending_domain, hdom,
    List.getD_append _ _ _ _ (by rw [hlen]; exact hd)]

theorem histAt_apply_pending_last {s t : ProbState} (hdom : t.domain = s.domain)
    {n : ℕ} (hlen : s.domain.length = n) :
    t.apply_pending.histAt n = t.apply_pending.count := by
  unfold ProbState.histAt
  rw [ProbState.apply_pending_domain, ProbState.apply_pending_count, hdom, ← hlen,
    List.getD_append_right _ _ _ _ le_rfl]
  simp

theorem stagePure_isolated_domain (dg : ℚ) (g : AgeGroup) :
    (stagePure dg g).isolated.domain = g.isolated.domain := by
  simp [stagePure, AgeGroup.calculate_redistributions]

theorem stagePure_h_noncrit_domain (dg : ℚ) (g : AgeGroup) :
    (stagePure dg g).h_noncrit.domain = g.h_noncrit.domain := by
  simp [stagePure, AgeGroup.calculate_redistributions]

theorem stagePure_h_icu_domain (dg : ℚ) (g : AgeGroup) :
    (stagePure dg g).h_icu.domain = g.h_icu.domain := by
  simp [stagePure, AgeGroup.calculate_redistributions]

theorem stagePure_h_icu_vent_domain (dg : ℚ) (g : AgeGroup) :
    (stagePure dg g).h_icu_vent.domain = g.h_icu_vent.domain := by
  simp [stagePure, AgeGroup.calculate_redistributions]

theorem stagePure_recovered_domain (dg : ℚ) (g : AgeGroup) :
    (stagePure dg g).recovered.domain = g.recovered.domain := by
  simp [stagePure, AgeGroup.calculate_redistributions]

theorem stagePure_deceased_domain (dg : ℚ) (g : AgeGroup) :
    (stagePure dg g).deceased.domain = g.deceased.domain := by
  simp [stagePure, AgeGroup.calculate_redistributions]

theorem groupHistAt_stage_lt (dg : ℚ) {g : AgeGroup} {n d : ℕ}
    (hl : groupLens g n) (hd : d < n) :
    groupHistAt ((stagePure dg g).apply_pending) d = groupHistAt g d := by
  obtain ⟨l1, l2, l3, l4, l5, l6⟩ := hl
  show ((stagePure dg g).isolated.apply_pending).histAt d +
      ((stagePure dg g).h_noncrit.apply_pending).histAt d +
      ((stagePure dg g).h_icu.apply_pending).histAt d +
      ((stagePure dg g).h_icu_vent.apply_pending).histAt d +
      ((stagePure dg g).recovered.apply_pending).histAt d +
      ((stagePure dg g).deceased.apply_pending).histAt d = groupHistAt g d
  rw [histAt_apply_pending_lt (stagePure_isolated_domain dg g) l1 hd,
    histAt_apply_pending_lt (stagePure_h_noncrit_domain dg g) l2 hd,
    histAt_apply_pending_lt (stagePure_h_icu_domain dg g) l3 hd,
    histAt_apply_pending_lt (stagePure_h_icu_vent_domain dg g) l4 hd,
    histAt_apply_pending_lt (stagePure_recovered_domain dg g) l5 hd,
    histAt_apply_pending_lt (stagePure_deceased_domain dg g) l6 hd]
  rfl

theorem groupHistAt_stage_last (dg : ℚ) {g : AgeGroup} {n : ℕ}
    (hl : groupLens g n) :
    groupHistAt ((stagePure dg g).apply_pending) n =
      groupCountSum ((stagePure dg g).apply_pending) := by
  obtain ⟨l1, l2, l3, l4, l5, l6⟩ := hl
  show ((stagePure dg g).isolated.apply_pending).histAt n +
      ((stagePure dg g).h_noncrit.apply_pending).histAt n +
      ((stagePure dg g).h_icu.apply_pending).histAt n +
      ((stagePure dg g).h_icu_vent.apply_pending).histAt n +
      ((stagePure dg g).recovered.apply_pending).histAt n +
      ((stagePure dg g).deceased.apply_pending).histAt n = _
  rw [histAt_apply_pending_last (stagePure_isolated_domain dg g) l1,
    histAt_apply_pending_last (stagePure_h_noncrit_domain dg g) l2,
    histAt_apply_pending_last (stagePure_h_icu_domain dg g) l3,
    histAt_apply_pending_last (stagePure_h_icu_vent_domain dg g) l4,
    histAt_apply_pending_last (stagePure_recovered_domain dg g) l5,
    histAt_apply_pending_last (stagePure_deceased_domain dg g) l6]
  rfl

theorem zeroGroupPendings_apply (g : AgeGroup) :
    zeroGroupPendings g.apply_pending := by
  simp [zeroGroupPendings, AgeGroup.apply_pending]

theorem step_day_popdist {m m' : Model} (h : step_day m = .ok m') :
    m'.subgroups.map (fun g => g.stats.pop_dist) =
      m.subgroups.map fun g => g.stats.pop_dist := by
  rw [step_day_subgroups h, List.map_map]
  rfl

theorem groupLens_stage {g : AgeGroup} {n : ℕ} (dg : ℚ) (hl : groupLens g n) :
    groupLens ((stagePure dg g).apply_pending) (n + 1) := by
  obtain ⟨l1, l2, l3, l4, l5, l6⟩ := hl
  refine ⟨?_, ?_, ?_, ?_, ?_, ?_⟩ <;>
    simp [AgeGroup.apply_pending, stagePure_isolated_domain,
      stagePure_h_noncrit_domain, stagePure_h_icu_domain,
      stagePure_h_icu_vent_domain, stagePure_recovered_domain,
      stagePure_deceased_domain, l1, l2, l3, l4, l5, l6]

theorem step_day_ConsInv {T : ℚ} {m m' : Model} (h : step_day m = .ok m')
    (hinv : ConsInv T m) : ConsInv T m' := by
  obtain ⟨hzero, hgood, halign, hcur, hday⟩ := hinv
  obtain ⟨pS, pE, pI, pH, pG⟩ := hzero
  obtain ⟨hpd, hsp⟩ := hgood
  obtain ⟨aE, aI, aG⟩ := halign
  have hsub := step_day_subgroups h
  have hpd' := step_day_popdist h
  have hdiag : diagnosedOf m = m.infectious.passAmount := by
    unfold diagnosedOf
    rw [pH, zero_add]
  obtain ⟨b, staged, hb, hmap, rfl⟩ := step_day_ok_elim h
  have hc1 : (commitStep m b staged).susceptible.count =
      m.susceptible.count - new_infections m b := by
    simp [commitStep, pS]
    ring
  have hc2 : (commitStep m b staged).incubating.count =
      m.incubating.count + new_infections m b - m.incubating.passAmount := by
    simp [commitStep, pE]
    ring
  have hc3 : (commitStep m b staged).infectious.count =
      m.infectious.count + m.incubating.passAmount -
        m.infectious.passAmount := by
    simp [commitStep, pI]
    ring
  have hcur' : currentSum (commitStep m b staged) = T := by
    unfold currentSum
    rw [hc1, hc2, hc3, hsub,
      groupsSum_stage (diagnosedOf m) m.subgroups
        (fun g hg => ⟨pG g hg, hsp g hg⟩),
      hpd, hdiag]
    unfold currentSum at hcur
    linarith
  have hlenS : (commitStep m b staged).susceptible.domain.length =
      m.susceptible.domain.length + 1 := by
    simp [commitStep]
  refine ⟨⟨by simp [commitStep], by simp [commitStep], by simp [commitStep],
    by simp [commitStep], ?_⟩, ⟨by rw [hpd']; exact hpd, ?_⟩,
    ⟨by simp [commitStep, aE], by simp [commitStep, aI], ?_⟩, hcur', ?_⟩
  · intro g' hg'
    rw [hsub] at hg'
    obtain ⟨g, hg, rfl⟩ := List.mem_map.mp hg'
    exact zeroGroupPendings_apply _
  · intro g' hg'
    obtain ⟨g, hg, hgs⟩ := subgroups_stats_mem h hg'
    rw [hgs]
    exact hsp g hg
  · intro g' hg'
    rw [hsub] at hg'
    obtain ⟨g, hg, rfl⟩ := List.mem_map.mp hg'
    rw [hlenS]
    exact groupLens_stage _ (aG g hg)
  · intro d hd
    rw [hlenS] at hd
    rcases Nat.lt_succ_iff_lt_or_eq.mp hd with hd | rfl
    · have e1 : (commitStep m b staged).susceptible.histAt d =
          m.susceptible.histAt d :=
        histAt_apply_pending_lt (ProbState.store_pending_domain _ _) rfl hd
      have e2 : (commitStep m b staged).incubating.histAt d =
          m.incubating.histAt d :=
        histAt_apply_pending_lt (by simp) aE hd
      have e3 : (commitStep m b staged).infectious.histAt d =
          m.infectious.histAt d :=
        histAt_apply_pending_lt (by simp) aI hd
      have e4 : ((commitStep m b staged).subgroups.map
          fun g => groupHistAt g d).sum =
          (m.subgroups.map fun g => groupHistAt g d).sum := by
        rw [hsub, List.map_map]
        congr 1
        apply List.map_congr_left
        intro g hg
        exact groupHistAt_stage_lt _ (aG g hg) hd
      unfold daySum
      rw [e1, e2, e3, e4]
      exact hday d hd
    · have e1 : (commitStep m b staged).susceptible.histAt
            m.susceptible.domain.length =
          (commitStep m b staged).susceptible.count :=
        histAt_apply_pending_last (ProbState.store_pending_domain _ _) rfl
      have e2 : (commitStep m b staged).incubating.histAt
            m.susceptible.domain.length =
          (commitStep m b staged).incubating.count :=
        histAt_apply_pending_last (by simp) aE
      have e3 : (commitStep m b staged).infectious.histAt
            m.susceptible.domain.length =
          (commitStep m b staged).infectious.count :=
        histAt_apply_pending_last (by simp) aI
      have e4 : ((commitStep m b staged).subgroups.map
          fun g => groupHistAt g m.susceptible.domain.length).sum =
          ((commitStep m b staged).subgroups.map groupCountSum).sum := by
        rw [hsub, List.map_map, List.map_map]
        congr 1
        apply List.map_congr_left
        intro g hg
        exact groupHistAt_stage_last _ (aG g hg)
      unfold daySum
      rw [e1, e2, e3, e4]
      exact hcur'

theorem stepN_ConsInv {T : ℚ} :
    ∀ (n : ℕ) {m mf : Model}, stepN m n = .ok mf → ConsInv T m →
      ConsInv T mf := by
  intro n
  induction n with
  | zero =>
    intro m mf h hinv
    simp only [stepN, Except.ok.injEq] at h
    rw [← h]
    exact hinv
  | succ k ih =>
    intro m mf h hinv
    obtain ⟨m1, hs, hrest⟩ := bind_ok_elim h
    exact ih hrest (step_day_ConsInv hs hinv)

theorem run_go_ConsInv {T : ℚ} :
    ∀ (offs : List ℕ) (vs : List ℚ) (day : ℕ) {m mf : Model},
      run_go m day offs vs = .ok mf → ConsInv T m → ConsInv T mf := by
  intro offs
  induction offs with
  | nil =>
    intro vs day m mf h hinv
    simp only [run_go, Except.ok.injEq] at h
    rw [← h]
    exact hinv
  | cons off rest ih =>
    intro vs day m mf h hinv
    cases vs with
    | nil => simp [run_go] at h
    | cons v vrest =>
      obtain ⟨m1, hstep, hrest⟩ := bind_ok_elim h
      have hinv1 : ConsInv T (recalculate (set_r0 m v)) := hinv
      exact ih vrest (max day off) hrest (stepN_ConsInv (off - day) hstep hinv1)

theorem groupCountSum_mk (s : SubgroupStats) :
    groupCountSum (mkAgeGroup s) = 0 := by
  simp [groupCountSum, mkAgeGroup, mkProbState]

theorem groupHistAt_mk (s : SubgroupStats) (d : ℕ) :
    groupHistAt (mkAgeGroup s) d = 0 := by
  simp [groupHistAt, mkAgeGroup, mkProbState, ProbState.histAt]

theorem mkModel_ConsInv (sc : Scenario)
    (hinit : sc.init_susceptible + sc.init_infected + sc.init_infectious =
      sc.totalpop)
    (hpd : (sc.subgrouprates.map fun s => s.pop_dist).sum = 1)
    (hsp : ∀ s ∈ sc.subgrouprates, goodSplits s) :
    ConsInv sc.totalpop (mkModel sc) := by
  have hzsum : ((sc.subgrouprates.map mkAgeGroup).map groupCountSum).sum = 0 := by
    apply List.sum_eq_zero
    intro x hx
    rw [List.map_map] at hx
    obtain ⟨s, _, rfl⟩ := List.mem_map.mp hx
    exact groupCountSum_mk s
  refine ⟨⟨rfl, rfl, rfl, rfl, ?_⟩, ⟨?_, ?_⟩, ⟨rfl, rfl, ?_⟩, ?_, ?_⟩
  · intro g hg
    obtain ⟨s, _, rfl⟩ := List.mem_map.mp hg
    exact ⟨rfl, rfl, rfl, rfl, rfl, rfl⟩
  · rw [show (mkModel sc).subgroups = sc.subgrouprates.map mkAgeGroup from rfl,
      List.map_map]
    exact hpd
  · intro g hg
    obtain ⟨s, hs, rfl⟩ := List.mem_map.mp hg
    exact hsp s hs
  · intro g hg
    obtain ⟨s, _, rfl⟩ := List.mem_map.mp hg
    exact ⟨rfl, rfl, rfl, rfl, rfl, rfl⟩
  · unfold currentSum
    rw [show (mkModel sc).subgroups = sc.subgrouprates.map mkAgeGroup from rfl,
      hzsum]
    show sc.init_susceptible + sc.init_infected + sc.init_infectious + 0 = _
    rw [add_zero]
    exact hinit
  · intro d hd
    have hd0 : d = 0 := Nat.lt_one_iff.mp hd
    subst hd0
    have hzh : ((sc.subgrouprates.map mkAgeGroup).map fun g =>
        groupHistAt g 0).sum = 0 := by
      apply List.sum_eq_zero
      intro x hx
      rw [List.map_map] at hx
      obtain ⟨s, _, rfl⟩ := List.mem_map.mp hx
      exact groupHistAt_mk s 0
    unfold daySum
    rw [show (mkModel sc).subgroups = sc.subgrouprates.map mkAgeGroup from rfl,
      hzh]
    show sc.init_susceptible + sc.init_infected + sc.init_infectious + 0 = _
    rw [add_zero]
    exact hinit

instance (s : SubgroupStats) : Decidable (goodSplits s) := by
  unfold goodSplits
  infer_instance

/-- The conclusion of claim C1: at every recorded day `d` of the run, the
sum of `susceptible[d] + incubating[d] + infectious[d]` and every
cascade-stage count at day `d` over all age groups equals `T`. -/
def runConserved (mf : Model) (T : ℚ) : Prop :=
  ∀ d, d < mf.susceptible.domain.length → daySum mf d = T

/-- Claim C1: for a scenario whose initial compartment counts sum to the
total population, whose group weights sum to 1 and whose cascade outcome
splits are complete, every day of a completed run conserves the initial
total population exactly (the rational-arithmetic model has no
floating-point error, so the tolerance is 0). -/
theorem c1_population_conserved (sc : Scenario) (offs : List ℕ)
    (vs : List ℚ) (mf : Model)
    (h : run_r0_set (mkModel sc) offs vs = .ok mf)
    (hinit : sc.init_susceptible + sc.init_infected + sc.init_infectious =
      sc.totalpop)
    (hpd : (sc.subgrouprates.map fun s => s.pop_dist).sum = 1)
    (hsp : ∀ s ∈ sc.subgrouprates, goodSplits s) :
    runConserved mf sc.totalpop := by
  have hinv0 := mkModel_ConsInv sc hinit hpd hsp
  have hinv1 : ConsInv sc.totalpop
      { mkModel sc with hospital_door_aggregator := [] } := hinv0
  exact (run_go_ConsInv offs vs 0 h hinv1).2.2.2.2

unseal Rat.add Rat.mul Rat.inv Rat.sub in
theorem c1_population_conserved_witness :
    run_r0_set (mkModel scW) [2] [2] = Except.ok w9f ∧
    runConserved w9f scW.totalpop :=
  ⟨by rfl, c1_population_conserved scW [2] [2] w9f (by rfl) (by decide)
    (by decide) (by decide)⟩

end EpiModel
